import Mathlib

/-!
# Verification of the reglex lexer generator and its generated runtime

Shallow embedding of the reglex sources:
* the runtime skeleton `src/lexer_template/template.c` (state, `reglex_next`,
  `reglex_accept`, `reglex_reset_to_checkpoint`, `reglex_parse_token`,
  `reglex_parse`),
* the emitted reject functions (`print_reject_functions`, src/reglex.c),
* the generator's data handling (`get_definition`, `consume_reg_defs`,
  `consume_token_actions`, `print_parser_switching`, and the empty-match
  check in `main`, all src/reglex.c).

Bytes are modelled as `Nat`; the C `EOF` sentinel is modelled by `Option.none`
(the runtime treats `EOF` as distinct from every byte value).  The input
stream `FILE *` is modelled as the list of bytes not yet returned by `fgetc`.
-/

namespace Reglex

/-- The mutable runtime state of a generated lexer
(globals of src/lexer_template/template.c):
`reglex_checkpoint_tag`, `reglex_lexem_str`, `reglex_read_ahead`,
`reglex_read_ahead_ptr`, the input stream, and `reglex_parse_result`.
Location tracking (`reglex_curr_loc` etc.) only feeds the diagnostics API
and is not modelled. -/
structure ReglexState where
  checkpoint_tag : Int
  lexem : List Nat
  read_ahead : List Nat
  read_ahead_ptr : Nat
  input : List Nat
  parse_result : Int
deriving Repr, DecidableEq

/-- `reglex_accept` (template.c lines 69-77): record the checkpoint tag,
append the first `read_ahead.length - read_ahead_ptr` bytes of the
read-ahead buffer (the bytes consumed since the last accept) to the lexeme
(`reglex_append_str_to_str_n`), and remove them from the read-ahead buffer
(`reglex_shift_str`). -/
def reglex_accept (tag : Int) (st : ReglexState) : ReglexState :=
  let chars_to_accept := st.read_ahead.length - st.read_ahead_ptr
  { st with
      checkpoint_tag := tag
      lexem := st.lexem ++ st.read_ahead.take chars_to_accept
      read_ahead := st.read_ahead.drop chars_to_accept }

/-- `reglex_reset_to_checkpoint` (template.c lines 85-90): clear the
checkpoint tag, clear the lexeme (`reglex_clear_str`), and rewind the replay
cursor so the whole read-ahead buffer is served again
(`reglex_read_ahead_ptr = reglex_read_ahead.length`). -/
def reglex_reset_to_checkpoint (st : ReglexState) : ReglexState :=
  { st with
      checkpoint_tag := -1
      lexem := []
      read_ahead_ptr := st.read_ahead.length }

/-- `reglex_next` (template.c lines 111-128): if replay bytes remain
(`read_ahead_ptr > 0`), serve `read_ahead.data[read_ahead.length -
read_ahead_ptr]` and decrement the cursor; otherwise read from the stream,
and append the byte to the read-ahead buffer unless it is `EOF`. -/
def reglex_next (st : ReglexState) : Option Nat × ReglexState :=
  if 0 < st.read_ahead_ptr then
    (some (st.read_ahead.getD (st.read_ahead.length - st.read_ahead_ptr) 0),
      { st with read_ahead_ptr := st.read_ahead_ptr - 1 })
  else
    match st.input with
    | [] => (none, st)
    | b :: rest =>
      (some b, { st with read_ahead := st.read_ahead ++ [b], input := rest })

/-- One emitted reject function (`print_reject_functions`, src/reglex.c
lines 523-541): `switch (reglex_checkpoint_tag)` with one `case` per rule
tag `0 .. numTags-1` running the user action, and a `default` case that sets
`reglex_parse_result` to `0` when the read-ahead buffer is empty and to `1`
otherwise; in both cases `reglex_reset_to_checkpoint()` runs afterwards.
The dispatched user action is modelled by reporting the pair
`(tag, lexeme)` handed to it; `none` means the default (terminal) case. -/
def reglex_reject (numTags : Nat) (st : ReglexState) :
    ReglexState × Option (Nat × List Nat) :=
  if 0 ≤ st.checkpoint_tag ∧ st.checkpoint_tag < (numTags : Int) then
    (reglex_reset_to_checkpoint st, some (st.checkpoint_tag.toNat, st.lexem))
  else
    (reglex_reset_to_checkpoint
      { st with parse_result := if st.read_ahead.length = 0 then 0 else 1 },
      none)

/-- A minimal DFA as consumed by the code generator: a start state,
a transition function (`none` = missing transition, which also covers the
`EOF` behavior), and an `end_tag` per state (`-1` = not accepting). -/
structure DFA where
  start : Nat
  delta : Nat → Nat → Option Nat
  end_tag : Nat → Int

/-- One step of an emitted matcher at DFA state `q`.  Modelled from the
spec: the matcher code itself is produced by `print_automaton_to_c_code`
of the external regex2c library (not under src/); per the spec's codegen
shape, an accepting state calls `reglex_accept(end_tag)` before reading the
next byte with `reglex_next`. -/
def reglex_step (d : DFA) (q : Nat) (st : ReglexState) :
    Option Nat × ReglexState :=
  reglex_next (if d.end_tag q = -1 then st else reglex_accept (d.end_tag q) st)

/-- The emitted matcher loop (`reglex_parse_token_<name>`).  Modelled from
the spec's codegen shape (the emitter is in the external regex2c library):
at state `q`, accept if accepting, read a byte, follow the transition if
one exists, otherwise call the reject function.  `EOF` is treated as
"no transition".  `fuel` bounds the recursion; `none` = fuel exhausted
(shown unreachable for sufficient fuel). -/
def reglex_run (d : DFA) (numTags : Nat) :
    Nat → Nat → ReglexState → Option (ReglexState × Option (Nat × List Nat))
  | 0, _, _ => none
  | fuel + 1, q, st =>
    match reglex_step d q st with
    | (some b, st2) =>
      match d.delta q b with
      | some q2 => reglex_run d numTags fuel q2 st2
      | none => some (reglex_reject numTags st2)
    | (none, st2) => some (reglex_reject numTags st2)

/-- `reglex_parse_token` (template.c lines 130-137): run the active matcher
from the DFA start state.  The fuel `read_ahead_ptr + input.length + 1`
dominates the loop's strictly decreasing measure, so it never runs out. -/
def reglex_parse_token (d : DFA) (numTags : Nat) (st : ReglexState) :
    Option (ReglexState × Option (Nat × List Nat)) :=
  reglex_run d numTags (st.read_ahead_ptr + st.input.length + 1) d.start st

/-- `reglex_parse` (template.c lines 139-145): repeatedly call
`reglex_parse_token` while the result is the running value `-1`, then
return the terminal result (together with the final state). -/
def reglex_parse (d : DFA) (numTags : Nat) :
    Nat → ReglexState → Option (Int × ReglexState)
  | 0, _ => none
  | fuel + 1, st =>
    match reglex_parse_token d numTags st with
    | none => none
    | some (st2, _) =>
      if st2.parse_result = -1 then reglex_parse d numTags fuel st2
      else some (st2.parse_result, st2)

/-- A driver that performs up to `k` successive `reglex_parse_token` calls,
collecting the `(tag, lexeme)` pairs reported to the user actions, and
stopping early at the first terminal (non-dispatching) call. -/
def reglex_drive (d : DFA) (numTags : Nat) :
    Nat → ReglexState → List (Nat × List Nat) →
      Option (ReglexState × List (Nat × List Nat))
  | 0, st, acc => some (st, acc)
  | k + 1, st, acc =>
    match reglex_parse_token d numTags st with
    | none => none
    | some (st2, some tok) => reglex_drive d numTags k st2 (acc ++ [tok])
    | some (st2, none) => some (st2, acc)

/-- The pristine runtime state of the generated program with input stream
`inp`: all template globals at their initializers. -/
def initState (inp : List Nat) : ReglexState :=
  { checkpoint_tag := -1
    lexem := []
    read_ahead := []
    read_ahead_ptr := 0
    input := inp
    parse_result := -1 }

/-! ## Runtime invariants -/

/-- Tag/lexeme invariant of the runtime: either the checkpoint tag is a
valid rule tag of the active parser (some `reglex_accept` ran since the
last reset), or it is the cleared value `-1` and the lexeme is empty. -/
def WfTag (numTags : Nat) (st : ReglexState) : Prop :=
  (0 ≤ st.checkpoint_tag ∧ st.checkpoint_tag < (numTags : Int)) ∨
    (st.checkpoint_tag = -1 ∧ st.lexem = [])

/-- Master invariant relating a runtime state to the original input `orig`
and the lexemes `rep` reported to actions so far: the replay cursor stays
inside the buffer, and every byte read from the stream so far sits in
exactly one of: a reported lexeme, the current lexeme, or the read-ahead
buffer. -/
def Inv (numTags : Nat) (orig : List Nat) (rep : List (List Nat))
    (st : ReglexState) : Prop :=
  st.read_ahead_ptr ≤ st.read_ahead.length ∧
  orig = rep.flatten ++ (st.lexem ++ (st.read_ahead ++ st.input)) ∧
  WfTag numTags st

/-! ## Basic lemmas about the primitive operations -/

theorem reglex_accept_checkpoint_tag (t : Int) (st : ReglexState) :
    (reglex_accept t st).checkpoint_tag = t := rfl

theorem reglex_accept_input (t : Int) (st : ReglexState) :
    (reglex_accept t st).input = st.input := rfl

theorem reglex_accept_ptr (t : Int) (st : ReglexState) :
    (reglex_accept t st).read_ahead_ptr = st.read_ahead_ptr := rfl

theorem reglex_accept_parse_result (t : Int) (st : ReglexState) :
    (reglex_accept t st).parse_result = st.parse_result := rfl

/-- `reglex_accept` moves bytes from the read-ahead buffer into the lexeme
without losing or duplicating any: the concatenation
lexeme ++ read-ahead is unchanged. -/
theorem reglex_accept_cat (t : Int) (st : ReglexState) :
    (reglex_accept t st).lexem ++ (reglex_accept t st).read_ahead =
      st.lexem ++ st.read_ahead := by
  simp [reglex_accept, List.append_assoc, List.take_append_drop]

/-- After `reglex_accept` the read-ahead buffer holds exactly the
`read_ahead_ptr` unserved pushback bytes. -/
theorem reglex_accept_read_ahead_length (t : Int) (st : ReglexState)
    (h : st.read_ahead_ptr ≤ st.read_ahead.length) :
    (reglex_accept t st).read_ahead.length = st.read_ahead_ptr := by
  simp [reglex_accept]
  omega

/-- Three-list form of `reglex_accept_cat` including the untouched stream. -/
theorem reglex_accept_cat3 (t : Int) (st : ReglexState) :
    (reglex_accept t st).lexem ++
      ((reglex_accept t st).read_ahead ++ (reglex_accept t st).input) =
    st.lexem ++ (st.read_ahead ++ st.input) := by
  rw [← List.append_assoc, reglex_accept_cat, reglex_accept_input,
    List.append_assoc]

theorem reglex_reset_fields (st : ReglexState) :
    (reglex_reset_to_checkpoint st).checkpoint_tag = -1 ∧
    (reglex_reset_to_checkpoint st).lexem = [] ∧
    (reglex_reset_to_checkpoint st).read_ahead_ptr =
      (reglex_reset_to_checkpoint st).read_ahead.length ∧
    (reglex_reset_to_checkpoint st).read_ahead = st.read_ahead ∧
    (reglex_reset_to_checkpoint st).input = st.input ∧
    (reglex_reset_to_checkpoint st).parse_result = st.parse_result := by
  simp [reglex_reset_to_checkpoint]

/-- `reglex_next` returning `EOF` leaves the state completely untouched
(in particular `EOF` is never appended to the read-ahead buffer), and
happens exactly when no pushback remains and the stream is exhausted. -/
theorem reglex_next_none {st st' : ReglexState}
    (h : reglex_next st = (none, st')) :
    st' = st ∧ st.read_ahead_ptr = 0 ∧ st.input = [] := by
  unfold reglex_next at h
  split at h
  · exact absurd (congrArg Prod.fst h) (by simp)
  · split at h
    · rename_i hptr hinp
      refine ⟨(Prod.mk.injEq _ _ _ _ ▸ h).2.symm ▸ rfl, by omega, hinp⟩
    · exact absurd (congrArg Prod.fst h) (by simp)

/-- Characterization of a successful `reglex_next`: the bookkeeping fields
are untouched, the consumed-bytes concatenation is preserved, the measure
`read_ahead_ptr + input.length` strictly decreases, the replay cursor stays
in bounds, and the read-ahead buffer is nonempty afterwards. -/
theorem reglex_next_some {st st' : ReglexState} {b : Nat}
    (hptr : st.read_ahead_ptr ≤ st.read_ahead.length)
    (h : reglex_next st = (some b, st')) :
    st'.lexem = st.lexem ∧ st'.checkpoint_tag = st.checkpoint_tag ∧
    st'.parse_result = st.parse_result ∧
    st'.lexem ++ (st'.read_ahead ++ st'.input) =
      st.lexem ++ (st.read_ahead ++ st.input) ∧
    st'.read_ahead_ptr + st'.input.length <
      st.read_ahead_ptr + st.input.length ∧
    st'.read_ahead_ptr ≤ st'.read_ahead.length ∧
    st'.read_ahead ≠ [] := by
  unfold reglex_next at h
  split at h
  · rename_i hpos
    obtain ⟨hb, hst⟩ := Prod.mk.injEq _ _ _ _ ▸ h
    subst hst
    refine ⟨rfl, rfl, rfl, rfl, by simp; omega, by simp; omega, ?_⟩
    intro hnil
    rw [hnil] at hptr
    simp at hptr
    omega
  · split at h
    · exact absurd (congrArg Prod.fst h) (by simp)
    · rename_i hpos hinp
      obtain ⟨hb, hst⟩ := Prod.mk.injEq _ _ _ _ ▸ h
      subst hst
      refine ⟨rfl, rfl, rfl, by simp [hinp], by simp [hinp], by simp; omega,
        by simp⟩

/-- Full characterization of one emitted reject function: it always ends by
resetting to the checkpoint; with a valid checkpoint tag it dispatches that
tag's action with the current lexeme and leaves `parse_result` alone;
otherwise the `default` case sets `parse_result` from the emptiness of the
read-ahead buffer. -/
theorem reglex_reject_spec (numTags : Nat) (st : ReglexState) :
    (reglex_reject numTags st).1.checkpoint_tag = -1 ∧
    (reglex_reject numTags st).1.lexem = [] ∧
    (reglex_reject numTags st).1.read_ahead_ptr =
      (reglex_reject numTags st).1.read_ahead.length ∧
    (reglex_reject numTags st).1.read_ahead = st.read_ahead ∧
    (reglex_reject numTags st).1.input = st.input ∧
    (∀ t lx, (reglex_reject numTags st).2 = some (t, lx) →
      lx = st.lexem ∧ (t : Int) = st.checkpoint_tag ∧
      0 ≤ st.checkpoint_tag ∧ st.checkpoint_tag < (numTags : Int) ∧
      (reglex_reject numTags st).1.parse_result = st.parse_result) ∧
    ((reglex_reject numTags st).2 = none →
      ¬(0 ≤ st.checkpoint_tag ∧ st.checkpoint_tag < (numTags : Int)) ∧
      (reglex_reject numTags st).1.parse_result =
        (if st.read_ahead.length = 0 then 0 else 1)) := by
  unfold reglex_reject
  split
  · rename_i hcp
    refine ⟨rfl, rfl, by simp [reglex_reset_to_checkpoint], rfl, rfl, ?_, ?_⟩
    · intro t lx h
      obtain ⟨ht, hlx⟩ := Prod.mk.injEq _ _ _ _ ▸ (Option.some.inj h)
      subst hlx
      exact ⟨rfl, by omega, hcp.1, hcp.2, rfl⟩
    · intro h
      simp at h
  · rename_i hcp
    refine ⟨rfl, rfl, by simp [reglex_reset_to_checkpoint], rfl, rfl, ?_, ?_⟩
    · intro t lx h
      simp at h
    · intro _
      exact ⟨hcp, rfl⟩

/-- One matcher step preserves the conservation equation, the cursor bound
and the tag invariant, does not touch `parse_result`, and either consumes a
byte (strictly decreasing the replay+stream measure, with a nonempty
read-ahead buffer afterwards) or signals `EOF` from an untouched cursor
position with an exhausted stream. -/
theorem reglex_step_spec (d : DFA) (numTags : Nat) (q : Nat)
    (hd : ∀ p, d.end_tag p ≠ -1 →
      0 ≤ d.end_tag p ∧ d.end_tag p < (numTags : Int))
    {st : ReglexState} {c : Option Nat} {st2 : ReglexState}
    (hptr : st.read_ahead_ptr ≤ st.read_ahead.length)
    (hwf : WfTag numTags st)
    (h : reglex_step d q st = (c, st2)) :
    st2.lexem ++ (st2.read_ahead ++ st2.input) =
      st.lexem ++ (st.read_ahead ++ st.input) ∧
    st2.read_ahead_ptr ≤ st2.read_ahead.length ∧
    WfTag numTags st2 ∧
    st2.parse_result = st.parse_result ∧
    (c = none → st2.input = []) ∧
    (∀ b, c = some b →
      st2.read_ahead_ptr + st2.input.length <
        st.read_ahead_ptr + st.input.length ∧
      st2.read_ahead ≠ []) := by
  unfold reglex_step at h
  split at h
  · rcases c with _ | b
    · obtain ⟨heq, hp0, hi0⟩ := reglex_next_none h
      subst heq
      exact ⟨rfl, hptr, hwf, rfl, fun _ => hi0, fun b hb => by simp at hb⟩
    · obtain ⟨h1, h2, h3, h4, h5, h6, h7⟩ := reglex_next_some hptr h
      exact ⟨h4, h6, by rw [WfTag, h2, h1]; exact hwf, h3,
        fun hc => by simp at hc, fun b' hb => ⟨h5, h7⟩⟩
  · rename_i hacc
    have htag := hd q hacc
    have hptr1 : (reglex_accept (d.end_tag q) st).read_ahead_ptr ≤
        (reglex_accept (d.end_tag q) st).read_ahead.length := by
      rw [reglex_accept_ptr, reglex_accept_read_ahead_length _ _ hptr]
    have hwf1 : WfTag numTags (reglex_accept (d.end_tag q) st) :=
      Or.inl (by rw [reglex_accept_checkpoint_tag]; exact htag)
    rcases c with _ | b
    · obtain ⟨heq, hp0, hi0⟩ := reglex_next_none h
      rw [heq]
      refine ⟨reglex_accept_cat3 _ _, hptr1, hwf1, reglex_accept_parse_result _ _,
        fun _ => by rw [reglex_accept_input] at hi0; exact hi0,
        fun b hb => by simp at hb⟩
    · obtain ⟨h1, h2, h3, h4, h5, h6, h7⟩ := reglex_next_some hptr1 h
      refine ⟨?_, h6, by rw [WfTag, h2, h1]; exact hwf1, ?_, ?_, ?_⟩
      · rw [h4, reglex_accept_cat3]
      · rw [h3, reglex_accept_parse_result]
      · intro hc; simp at hc
      · intro b' hb
        refine ⟨?_, h7⟩
        calc st2.read_ahead_ptr + st2.input.length <
            (reglex_accept (d.end_tag q) st).read_ahead_ptr +
              (reglex_accept (d.end_tag q) st).input.length := h5
          _ = st.read_ahead_ptr + st.input.length := by
            rw [reglex_accept_ptr, reglex_accept_input]

/-- Main specification of the emitted matcher loop.  With fuel above the
replay+stream measure it terminates through exactly one call of the reject
function; afterwards the checkpoint is cleared, the lexeme empty, and the
whole read-ahead buffer is queued for replay.  A dispatching call extends
the reported-lexeme ledger by the dispatched lexeme and keeps
`parse_result`; a terminal call keeps the ledger, sets `parse_result` from
buffer emptiness, and an empty buffer implies an exhausted stream. -/
theorem reglex_run_spec (d : DFA) (numTags : Nat)
    (hd : ∀ p, d.end_tag p ≠ -1 →
      0 ≤ d.end_tag p ∧ d.end_tag p < (numTags : Int)) :
    ∀ fuel q (st : ReglexState) (orig : List Nat) (rep : List (List Nat)),
      st.read_ahead_ptr + st.input.length < fuel →
      Inv numTags orig rep st →
      ∃ st' res, reglex_run d numTags fuel q st = some (st', res) ∧
        st'.checkpoint_tag = -1 ∧ st'.lexem = [] ∧
        st'.read_ahead_ptr = st'.read_ahead.length ∧
        (∀ t lx, res = some (t, lx) →
          Inv numTags orig (rep ++ [lx]) st' ∧
          st'.parse_result = st.parse_result) ∧
        (res = none →
          Inv numTags orig rep st' ∧
          st'.parse_result = (if st'.read_ahead.length = 0 then 0 else 1) ∧
          (st'.read_ahead = [] → st'.input = [])) := by
  intro fuel
  induction fuel with
  | zero => intro q st orig rep hfuel; omega
  | succ fuel ih =>
    intro q st orig rep hfuel hinv
    obtain ⟨hptr, hcat, hwf⟩ := hinv
    rcases hstep : reglex_step d q st with ⟨c, st2⟩
    obtain ⟨s1, s2, s3, s4, s5, s6⟩ :=
      reglex_step_spec d numTags q hd hptr hwf hstep
    have hinv2 : Inv numTags orig rep st2 :=
      ⟨s2, by rw [hcat, s1], s3⟩
    rcases c with _ | b
    · -- EOF: the reject function runs on st2
      have hrw : reglex_run d numTags (fuel + 1) q st =
          some (reglex_reject numTags st2) := by
        rw [reglex_run, hstep]
      obtain ⟨r1, r2, r3, r4, r5, r6, r7⟩ := reglex_reject_spec numTags st2
      refine ⟨(reglex_reject numTags st2).1, (reglex_reject numTags st2).2,
        hrw, r1, r2, r3, ?_, ?_⟩
      · intro t lx hres
        obtain ⟨hlx, _, _, _, hpr⟩ := r6 t lx hres
        subst hlx
        refine ⟨⟨le_of_eq r3, ?_, Or.inr ⟨r1, r2⟩⟩, by rw [hpr, s4]⟩
        rw [hcat, ← s1, r2, r4, r5]
        simp
      · intro hres
        obtain ⟨hnocp, hpr⟩ := r7 hres
        have hlex2 : st2.lexem = [] := by
          rcases s3 with hval | hclear
          · exact absurd hval hnocp
          · exact hclear.2
        refine ⟨⟨le_of_eq r3, ?_, Or.inr ⟨r1, r2⟩⟩, by rw [hpr, r4], ?_⟩
        · rw [hcat, ← s1, r2, r4, r5, hlex2]
        · intro hra
          rw [r5]
          exact s5 rfl
    · -- a byte was consumed
      obtain ⟨hlt, hne⟩ := s6 b rfl
      rcases hdelta : d.delta q b with _ | q2
      · -- no transition: reject on st2
        have hrw : reglex_run d numTags (fuel + 1) q st =
            some (reglex_reject numTags st2) := by
          rw [reglex_run, hstep]
          show (match d.delta q b with
            | some q2 => reglex_run d numTags fuel q2 st2
            | none => some (reglex_reject numTags st2)) = _
          rw [hdelta]
        obtain ⟨r1, r2, r3, r4, r5, r6, r7⟩ := reglex_reject_spec numTags st2
        refine ⟨(reglex_reject numTags st2).1, (reglex_reject numTags st2).2,
          hrw, r1, r2, r3, ?_, ?_⟩
        · intro t lx hres
          obtain ⟨hlx, _, _, _, hpr⟩ := r6 t lx hres
          subst hlx
          refine ⟨⟨le_of_eq r3, ?_, Or.inr ⟨r1, r2⟩⟩, by rw [hpr, s4]⟩
          rw [hcat, ← s1, r2, r4, r5]
          simp
        · intro hres
          obtain ⟨hnocp, hpr⟩ := r7 hres
          have hlex2 : st2.lexem = [] := by
            rcases s3 with hval | hclear
            · exact absurd hval hnocp
            · exact hclear.2
          refine ⟨⟨le_of_eq r3, ?_, Or.inr ⟨r1, r2⟩⟩, by rw [hpr, r4], ?_⟩
          · rw [hcat, ← s1, r2, r4, r5, hlex2]
          · intro hra
            rw [r4] at hra
            exact absurd hra hne
      · -- follow the transition and recurse
        have hrw : reglex_run d numTags (fuel + 1) q st =
            reglex_run d numTags fuel q2 st2 := by
          rw [reglex_run, hstep]
          show (match d.delta q b with
            | some q3 => reglex_run d numTags fuel q3 st2
            | none => some (reglex_reject numTags st2)) = _
          rw [hdelta]
        obtain ⟨st', res, hrun, c1, c2, c3, c4, c5⟩ :=
          ih q2 st2 orig rep (by omega) hinv2
        refine ⟨st', res, hrw.trans hrun, c1, c2, c3, ?_, c5⟩
        intro t lx hres
        obtain ⟨ci, cpr⟩ := c4 t lx hres
        exact ⟨ci, by rw [cpr, s4]⟩

/-- `reglex_parse_token` under the invariant: its self-computed fuel is
always sufficient, so it returns a result with the properties of
`reglex_run_spec`. -/
theorem reglex_parse_token_spec (d : DFA) (numTags : Nat)
    (hd : ∀ p, d.end_tag p ≠ -1 →
      0 ≤ d.end_tag p ∧ d.end_tag p < (numTags : Int))
    (st : ReglexState) (orig : List Nat) (rep : List (List Nat))
    (hinv : Inv numTags orig rep st) :
    ∃ st' res, reglex_parse_token d numTags st = some (st', res) ∧
      st'.checkpoint_tag = -1 ∧ st'.lexem = [] ∧
      st'.read_ahead_ptr = st'.read_ahead.length ∧
      (∀ t lx, res = some (t, lx) →
        Inv numTags orig (rep ++ [lx]) st' ∧
        st'.parse_result = st.parse_result) ∧
      (res = none →
        Inv numTags orig rep st' ∧
        st'.parse_result = (if st'.read_ahead.length = 0 then 0 else 1) ∧
        (st'.read_ahead = [] → st'.input = [])) :=
  reglex_run_spec d numTags hd _ d.start st orig rep (by omega) hinv

/-- Structural lemma: any result of the matcher loop is the result of
exactly one call of the reject function, on a state whose `parse_result`
is the one the call started with (neither `reglex_accept` nor
`reglex_next` touches `parse_result`). -/
theorem reglex_run_reject_form (d : DFA) (numTags : Nat) :
    ∀ fuel q (st st' : ReglexState) (res : Option (Nat × List Nat)),
      reglex_run d numTags fuel q st = some (st', res) →
      ∃ stm, reglex_reject numTags stm = (st', res) ∧
        stm.parse_result = st.parse_result := by
  intro fuel
  induction fuel with
  | zero => intro q st st' res h; simp [reglex_run] at h
  | succ fuel ih =>
    intro q st st' res h
    rw [reglex_run] at h
    rcases hstep : reglex_step d q st with ⟨c, st2⟩
    rw [hstep] at h
    have hpr : st2.parse_result = st.parse_result := by
      unfold reglex_step at hstep
      split at hstep
      · rcases c with _ | b
        · obtain ⟨heq, _, _⟩ := reglex_next_none hstep
          rw [heq]
        · unfold reglex_next at hstep
          split at hstep
          · obtain ⟨_, h2⟩ := Prod.mk.injEq _ _ _ _ ▸ hstep
            rw [← h2]
          · split at hstep
            · exact absurd (congrArg Prod.fst hstep) (by simp)
            · obtain ⟨_, h2⟩ := Prod.mk.injEq _ _ _ _ ▸ hstep
              rw [← h2]
      · rcases c with _ | b
        · obtain ⟨heq, _, _⟩ := reglex_next_none hstep
          rw [heq, reglex_accept_parse_result]
        · unfold reglex_next at hstep
          split at hstep
          · obtain ⟨_, h2⟩ := Prod.mk.injEq _ _ _ _ ▸ hstep
            rw [← h2]
            exact reglex_accept_parse_result (d.end_tag q) st
          · split at hstep
            · exact absurd (congrArg Prod.fst hstep) (by simp)
            · obtain ⟨_, h2⟩ := Prod.mk.injEq _ _ _ _ ▸ hstep
              rw [← h2]
              exact reglex_accept_parse_result (d.end_tag q) st
    rcases c with _ | b
    · refine ⟨st2, Option.some.inj h, hpr⟩
    · change (match d.delta q b with
        | some q2 => reglex_run d numTags fuel q2 st2
        | none => some (reglex_reject numTags st2)) = some (st', res) at h
      rcases hdelta : d.delta q b with _ | q2
      · rw [hdelta] at h
        exact ⟨st2, Option.some.inj h, hpr⟩
      · rw [hdelta] at h
        obtain ⟨stm, hstm, hprm⟩ := ih q2 st2 st' res h
        exact ⟨stm, hstm, hprm.trans hpr⟩

/-- Stepping the token driver preserves the master invariant and the
post-reset facts. -/
theorem reglex_drive_spec (d : DFA) (numTags : Nat)
    (hd : ∀ p, d.end_tag p ≠ -1 →
      0 ≤ d.end_tag p ∧ d.end_tag p < (numTags : Int)) :
    ∀ k (st : ReglexState) (acc : List (Nat × List Nat)) (orig : List Nat),
      Inv numTags orig (acc.map Prod.snd) st →
      st.lexem = [] → st.read_ahead_ptr = st.read_ahead.length →
      ∃ st' toks, reglex_drive d numTags k st acc = some (st', toks) ∧
        Inv numTags orig (toks.map Prod.snd) st' ∧
        st'.lexem = [] ∧ st'.read_ahead_ptr = st'.read_ahead.length := by
  intro k
  induction k with
  | zero =>
    intro st acc orig hinv hlex hptr
    exact ⟨st, acc, rfl, hinv, hlex, hptr⟩
  | succ k ih =>
    intro st acc orig hinv hlex hptr
    obtain ⟨st2, res, hpt, c1, c2, c3, c4, c5⟩ :=
      reglex_parse_token_spec d numTags hd st orig (acc.map Prod.snd) hinv
    rcases res with _ | ⟨t, lx⟩
    · obtain ⟨hinv2, _, _⟩ := c5 rfl
      refine ⟨st2, acc, ?_, hinv2, c2, c3⟩
      rw [reglex_drive, hpt]
    · obtain ⟨hinv2, _⟩ := c4 t lx rfl
      have hmap : (acc ++ [(t, lx)]).map Prod.snd = acc.map Prod.snd ++ [lx] := by
        simp
      obtain ⟨st', toks, hdr, hi, hl, hp⟩ :=
        ih st2 (acc ++ [(t, lx)]) orig (by rw [hmap]; exact hinv2) c2 c3
      refine ⟨st', toks, ?_, hi, hl, hp⟩
      rw [reglex_drive, hpt]
      exact hdr

/-- A concrete two-state matcher used to instantiate the universally
quantified runtime theorems: one rule with tag 0 accepting exactly the
single byte 97. -/
def dfaEx : DFA where
  start := 0
  delta := fun q b => if q = 0 ∧ b = 97 then some 1 else none
  end_tag := fun q => if q = 1 then 0 else -1

/-- The end tags of `dfaEx` are valid rule tags of a one-rule parser. -/
theorem dfaEx_tags_valid :
    ∀ p, dfaEx.end_tag p ≠ -1 →
      0 ≤ dfaEx.end_tag p ∧ dfaEx.end_tag p < ((1 : Nat) : Int) := by
  intro p
  by_cases hp : p = 1 <;> simp [dfaEx, hp]

/-- C1: Rewind fidelity of the generated runtime: for every input stream
and every sequence of tokens recognized by successive `parse_token` calls,
the concatenation of the lexemes reported to the actions equals the prefix
of the input consumed so far (the stream bytes minus the pushback still
queued for replay); the interplay of `reglex_next`, `reglex_accept` and
`reglex_reset_to_checkpoint` never loses or duplicates a byte. -/
theorem C1_rewind_fidelity (d : DFA) (numTags : Nat)
    (hd : ∀ p, d.end_tag p ≠ -1 →
      0 ≤ d.end_tag p ∧ d.end_tag p < (numTags : Int))
    (orig : List Nat) (k : Nat) :
    ∃ st toks, reglex_drive d numTags k (initState orig) [] = some (st, toks) ∧
      (toks.map Prod.snd).flatten ++ (st.read_ahead ++ st.input) = orig ∧
      st.read_ahead_ptr = st.read_ahead.length ∧
      st.lexem = [] := by
  obtain ⟨st', toks, hdr, hinv, hl, hp⟩ :=
    reglex_drive_spec d numTags hd k (initState orig) [] orig
      ⟨by simp [initState], by simp [initState], Or.inr ⟨rfl, rfl⟩⟩ rfl rfl
  refine ⟨st', toks, hdr, ?_, hp, hl⟩
  obtain ⟨_, hcat, _⟩ := hinv
  rw [hl] at hcat
  simpa using hcat.symm

/-- C1 witness: driving `dfaEx` over the input `[97, 97]`. -/
theorem C1_rewind_fidelity_witness :
    (∀ p, dfaEx.end_tag p ≠ -1 →
      0 ≤ dfaEx.end_tag p ∧ dfaEx.end_tag p < ((1 : Nat) : Int)) ∧
    (∃ st toks,
      reglex_drive dfaEx 1 3 (initState [97, 97]) [] = some (st, toks) ∧
      (toks.map Prod.snd).flatten ++ (st.read_ahead ++ st.input) = [97, 97] ∧
      st.read_ahead_ptr = st.read_ahead.length ∧
      st.lexem = []) :=
  ⟨dfaEx_tags_valid, C1_rewind_fidelity dfaEx 1 dfaEx_tags_valid [97, 97] 3⟩

/-- C2: `reglex_accept tag` sets `checkpoint_tag` to `tag`, appends exactly
the bytes consumed since the last accept (the first
`read_ahead.length - read_ahead_ptr` bytes of the read-ahead buffer) to the
lexeme, and removes that prefix from the read-ahead buffer, leaving only
the `read_ahead_ptr` unconsumed pushback bytes. -/
theorem C2_accept_spec (t : Int) (st : ReglexState)
    (h : st.read_ahead_ptr ≤ st.read_ahead.length) :
    (reglex_accept t st).checkpoint_tag = t ∧
    (reglex_accept t st).lexem =
      st.lexem ++
        st.read_ahead.take (st.read_ahead.length - st.read_ahead_ptr) ∧
    (reglex_accept t st).read_ahead =
      st.read_ahead.drop (st.read_ahead.length - st.read_ahead_ptr) ∧
    (reglex_accept t st).read_ahead.length = st.read_ahead_ptr ∧
    (reglex_accept t st).read_ahead_ptr = st.read_ahead_ptr ∧
    (reglex_accept t st).input = st.input :=
  ⟨rfl, rfl, rfl, reglex_accept_read_ahead_length t st h, rfl, rfl⟩

/-- C2 witness: accepting tag 0 with buffer `[1, 2, 3]` and cursor 1. -/
theorem C2_accept_spec_witness :
    (⟨-1, [5], [1, 2, 3], 1, [], -1⟩ : ReglexState).read_ahead_ptr ≤
      (⟨-1, [5], [1, 2, 3], 1, [], -1⟩ : ReglexState).read_ahead.length ∧
    ((reglex_accept 0 ⟨-1, [5], [1, 2, 3], 1, [], -1⟩).checkpoint_tag = 0 ∧
     (reglex_accept 0 ⟨-1, [5], [1, 2, 3], 1, [], -1⟩).lexem =
       [5] ++ [1, 2, 3].take ([1, 2, 3].length - 1) ∧
     (reglex_accept 0 ⟨-1, [5], [1, 2, 3], 1, [], -1⟩).read_ahead =
       [1, 2, 3].drop ([1, 2, 3].length - 1) ∧
     (reglex_accept 0 ⟨-1, [5], [1, 2, 3], 1, [], -1⟩).read_ahead.length = 1 ∧
     (reglex_accept 0 ⟨-1, [5], [1, 2, 3], 1, [], -1⟩).read_ahead_ptr = 1 ∧
     (reglex_accept 0 ⟨-1, [5], [1, 2, 3], 1, [], -1⟩).input = []) :=
  ⟨by decide, C2_accept_spec 0 ⟨-1, [5], [1, 2, 3], 1, [], -1⟩ (by decide)⟩

/-- C3: every successful `parse_token` call dispatches exactly one user
action, namely the reject-switch case selected by `checkpoint_tag` with the
lexeme current at that moment, and afterwards resets to the checkpoint:
`checkpoint_tag` is cleared to `-1`, the lexeme is cleared, and the replay
cursor is rewound over the whole read-ahead buffer so all bytes read past
the last accept are replayed on the next call; `parse_result` stays at its
incoming (running) value. -/
theorem C3_dispatch_and_reset (d : DFA) (numTags : Nat)
    (st st' : ReglexState) (res : Option (Nat × List Nat))
    (h : reglex_parse_token d numTags st = some (st', res)) :
    st'.checkpoint_tag = -1 ∧ st'.lexem = [] ∧
    st'.read_ahead_ptr = st'.read_ahead.length ∧
    ∃ stm, reglex_reject numTags stm = (st', res) ∧
      stm.parse_result = st.parse_result ∧
      (∀ t lx, res = some (t, lx) →
        (t : Int) = stm.checkpoint_tag ∧ lx = stm.lexem ∧
        st'.parse_result = st.parse_result) := by
  obtain ⟨stm, hstm, hpr⟩ :=
    reglex_run_reject_form d numTags _ d.start st st' res h
  obtain ⟨r1, r2, r3, r4, r5, r6, r7⟩ := reglex_reject_spec numTags stm
  have h1 : (reglex_reject numTags stm).1 = st' := congrArg Prod.fst hstm
  have h2 : (reglex_reject numTags stm).2 = res := congrArg Prod.snd hstm
  rw [h1] at r1 r2 r3
  rw [h2] at r6
  refine ⟨r1, r2, r3, stm, hstm, hpr, ?_⟩
  intro t lx hres
  obtain ⟨hlx, ht, _, _, hpr2⟩ := r6 t lx hres
  rw [h1] at hpr2
  exact ⟨ht, hlx, hpr2.trans hpr⟩

/-- C3 witness: `dfaEx` tokenizing the single byte 97. -/
theorem C3_dispatch_and_reset_witness :
    (⟨-1, [], [], 0, [], -1⟩ : ReglexState).checkpoint_tag = -1 ∧
    (⟨-1, [], [], 0, [], -1⟩ : ReglexState).lexem = [] ∧
    (⟨-1, [], [], 0, [], -1⟩ : ReglexState).read_ahead_ptr =
      (⟨-1, [], [], 0, [], -1⟩ : ReglexState).read_ahead.length ∧
    ∃ stm, reglex_reject 1 stm =
        ((⟨-1, [], [], 0, [], -1⟩ : ReglexState), some (0, [97])) ∧
      stm.parse_result = (initState [97]).parse_result ∧
      (∀ t lx, (some ((0 : Nat), [(97 : Nat)]) : Option (Nat × List Nat)) =
          some (t, lx) →
        (t : Int) = stm.checkpoint_tag ∧ lx = stm.lexem ∧
        (⟨-1, [], [], 0, [], -1⟩ : ReglexState).parse_result =
          (initState [97]).parse_result) :=
  C3_dispatch_and_reset dfaEx 1 (initState [97]) ⟨-1, [], [], 0, [], -1⟩
    (some (0, [97])) (by decide)

/-- The pristine runtime state satisfies the master invariant with an
empty ledger. -/
theorem initState_inv (numTags : Nat) (inp : List Nat) :
    Inv numTags inp [] (initState inp) :=
  ⟨by simp [initState], by simp [initState], Or.inr ⟨rfl, rfl⟩⟩

/-- C4: `reglex_parse` repeatedly calls `parse_token` until the result is
no longer the running value `-1` and returns it; the terminal value comes
from the emitted reject routine's `default` case, which sets the result to
`0` exactly when the read-ahead buffer is empty (clean `EOF`, stream
exhausted) and to `1` when unrecognized input remains in the buffer. -/
theorem C4_parse_terminal (d : DFA) (numTags : Nat)
    (hd : ∀ p, d.end_tag p ≠ -1 →
      0 ≤ d.end_tag p ∧ d.end_tag p < (numTags : Int)) :
    ∀ fuel (st : ReglexState) (orig : List Nat) (rep : List (List Nat)),
      Inv numTags orig rep st → st.parse_result = -1 →
      ∀ r st', reglex_parse d numTags fuel st = some (r, st') →
        r = (if st'.read_ahead.length = 0 then 0 else 1) ∧
        (r = 0 ∨ r = 1) ∧
        (r = 0 → st'.read_ahead = [] ∧ st'.input = []) := by
  intro fuel
  induction fuel with
  | zero =>
    intro st orig rep hinv hpr r st' h
    simp [reglex_parse] at h
  | succ fuel ih =>
    intro st orig rep hinv hpr r st' h
    obtain ⟨st2, res, hpt, c1, c2, c3, c4, c5⟩ :=
      reglex_parse_token_spec d numTags hd st orig rep hinv
    rw [reglex_parse, hpt] at h
    change (if st2.parse_result = -1 then reglex_parse d numTags fuel st2
      else some (st2.parse_result, st2)) = some (r, st') at h
    rcases res with _ | ⟨t, lx⟩
    · obtain ⟨hinv2, hpr2, hempty⟩ := c5 rfl
      have hne : ¬st2.parse_result = -1 := by
        rw [hpr2]; split <;> decide
      rw [if_neg hne] at h
      obtain ⟨hr, hst⟩ := Prod.mk.injEq _ _ _ _ ▸ (Option.some.inj h)
      subst hst
      refine ⟨by rw [← hr, hpr2], ?_, ?_⟩
      · rw [← hr, hpr2]; split
        · exact Or.inl rfl
        · exact Or.inr rfl
      · intro hr0
        rw [← hr, hpr2] at hr0
        have hlen : st2.read_ahead.length = 0 := by
          by_contra hc
          rw [if_neg hc] at hr0
          exact absurd hr0 (by decide)
        have hra : st2.read_ahead = [] := List.eq_nil_of_length_eq_zero hlen
        exact ⟨hra, hempty hra⟩
    · obtain ⟨hinv2, hpr2⟩ := c4 t lx rfl
      have hrun2 : st2.parse_result = -1 := by rw [hpr2, hpr]
      rw [if_pos hrun2] at h
      exact ih st2 orig (rep ++ [lx]) hinv2 hrun2 r st' h

/-- C4 witness: parsing `dfaEx` over the input `[97]` terminates with a
clean-EOF result of 0. -/
theorem C4_parse_terminal_witness :
    (∀ p, dfaEx.end_tag p ≠ -1 →
      0 ≤ dfaEx.end_tag p ∧ dfaEx.end_tag p < ((1 : Nat) : Int)) ∧
    (initState [97]).parse_result = -1 ∧
    ((0 : Int) =
        (if (⟨-1, [], [], 0, [], 0⟩ : ReglexState).read_ahead.length = 0
          then 0 else 1) ∧
      ((0 : Int) = 0 ∨ (0 : Int) = 1) ∧
      ((0 : Int) = 0 →
        (⟨-1, [], [], 0, [], 0⟩ : ReglexState).read_ahead = [] ∧
        (⟨-1, [], [], 0, [], 0⟩ : ReglexState).input = [])) :=
  ⟨dfaEx_tags_valid, rfl,
    C4_parse_terminal dfaEx 1 dfaEx_tags_valid 2 (initState [97]) [97] []
      (initState_inv 1 [97]) rfl 0 ⟨-1, [], [], 0, [], 0⟩ (by decide)⟩

/-- C10: `reglex_next` never appends `EOF` to the read-ahead buffer: an
`EOF` result leaves the state untouched, and any recorded byte is the byte
just returned; consequently after a clean end of input (empty buffer,
exhausted stream, no checkpoint) every further `parse_token` call re-reads
`EOF` from the stream, takes the reject path with an empty read-ahead
buffer, and returns 0 again, leaving the state unchanged apart from
`parse_result = 0`.  The start state is not accepting, as guaranteed by the
generator's empty-match check. -/
theorem C10_eof_never_buffered (d : DFA) (numTags : Nat)
    (hstart : d.end_tag d.start = -1) (pr : Int) :
    (∀ st st', reglex_next st = (none, st') → st' = st) ∧
    (∀ st b st', reglex_next st = (some b, st') →
      st'.read_ahead = st.read_ahead ∨
      st'.read_ahead = st.read_ahead ++ [b]) ∧
    reglex_parse_token d numTags ⟨-1, [], [], 0, [], pr⟩ =
      some (⟨-1, [], [], 0, [], 0⟩, none) := by
  refine ⟨fun st st' h => (reglex_next_none h).1, ?_, ?_⟩
  · intro st b st' h
    unfold reglex_next at h
    split at h
    · obtain ⟨_, h2⟩ := Prod.mk.injEq _ _ _ _ ▸ h
      left
      rw [← h2]
    · split at h
      · exact absurd (congrArg Prod.fst h) (by simp)
      · obtain ⟨hb, h2⟩ := Prod.mk.injEq _ _ _ _ ▸ h
        right
        rw [← h2, Option.some.inj hb]
  · show reglex_run d numTags (0 + 1) d.start ⟨-1, [], [], 0, [], pr⟩ =
      some (⟨-1, [], [], 0, [], 0⟩, none)
    have hstep : reglex_step d d.start ⟨-1, [], [], 0, [], pr⟩ =
        (none, ⟨-1, [], [], 0, [], pr⟩) := by
      unfold reglex_step
      rw [if_pos hstart]
      rfl
    rw [reglex_run, hstep]
    show some (reglex_reject numTags ⟨-1, [], [], 0, [], pr⟩) = _
    have hneg : ¬(0 ≤ (⟨-1, [], [], 0, [], pr⟩ : ReglexState).checkpoint_tag ∧
        (⟨-1, [], [], 0, [], pr⟩ : ReglexState).checkpoint_tag <
          (numTags : Int)) := by
      show ¬(0 ≤ (-1 : Int) ∧ (-1 : Int) < (numTags : Int))
      omega
    unfold reglex_reject
    rw [if_neg hneg]
    rfl

/-- C10 witness: instantiated at `dfaEx`. -/
theorem C10_eof_never_buffered_witness :
    dfaEx.end_tag dfaEx.start = -1 ∧
    ((∀ st st', reglex_next st = (none, st') → st' = st) ∧
     (∀ st b st', reglex_next st = (some b, st') →
       st'.read_ahead = st.read_ahead ∨
       st'.read_ahead = st.read_ahead ++ [b]) ∧
     reglex_parse_token dfaEx 1 ⟨-1, [], [], 0, [], -1⟩ =
       some (⟨-1, [], [], 0, [], 0⟩, none)) :=
  ⟨by decide, C10_eof_never_buffered dfaEx 1 (by decide) (-1)⟩

/-! ## Generator-side embedding (src/reglex.c) -/

/-- A node of a (minimal) automaton as the generator sees it: only the
`end_tag` field matters for the empty-match check (`-1` = not accepting). -/
structure AutomatonNode where
  end_tag : Int
deriving Repr, DecidableEq

/-- An automaton as indexed node table plus start index (regex2c layout,
as accessed by `main` in src/reglex.c). -/
structure Automaton where
  nodes : List AutomatonNode
  start_index : Nat
deriving Repr, DecidableEq

/-- The per-parser-spec emission step of `main` (src/reglex.c lines
694-710): after minimization, if the start state carries an end tag the
generator aborts via `reject(...)`/`errx(EXIT_FAILURE, ...)` — modelled as
`Except.error` carrying the diagnostic format string — before
`print_automaton_to_c_code` emits anything; otherwise the matcher text is
emitted. -/
def generate_matcher (mdfa : Automaton) (emitted : String) :
    Except String String :=
  if (mdfa.nodes.getD mdfa.start_index ⟨-1⟩).end_tag ≠ -1 then
    Except.error "no token expressions may accept an empty string"
  else
    Except.ok emitted

/-- C5 counterexample: on a minimal DFA whose start state is accepting the
generator does fail before emitting, but its diagnostic reads
"no token expressions may accept an empty string" (src/reglex.c line 699),
not the claimed "no token expression may accept the empty string". -/
theorem C5_message_counterexample :
    generate_matcher ⟨[⟨0⟩], 0⟩ "matcher text" =
      Except.error "no token expressions may accept an empty string" ∧
    "no token expressions may accept an empty string" ≠
      "no token expression may accept the empty string" := by
  constructor
  · rfl
  · decide

/-- C5 (amended): for every parser block whose minimal DFA has an accepting
start state, the generator fails before emitting that matcher, with the
fatal located diagnostic "no token expressions may accept an empty string"
(and hence a nonzero exit status, via `errx(EXIT_FAILURE, ...)`). -/
theorem C5_empty_match_rejected (mdfa : Automaton) (emitted : String)
    (h : (mdfa.nodes.getD mdfa.start_index ⟨-1⟩).end_tag ≠ -1) :
    generate_matcher mdfa emitted =
      Except.error "no token expressions may accept an empty string" := by
  unfold generate_matcher
  rw [if_pos h]

/-- C5 witness: a one-node automaton whose start state carries tag 0. -/
theorem C5_empty_match_rejected_witness :
    ((⟨[⟨0⟩], 0⟩ : Automaton).nodes.getD
        (⟨[⟨0⟩], 0⟩ : Automaton).start_index ⟨-1⟩).end_tag ≠ -1 ∧
    generate_matcher ⟨[⟨0⟩], 0⟩ "emitted" =
      Except.error "no token expressions may accept an empty string" :=
  ⟨by decide, C5_empty_match_rejected ⟨[⟨0⟩], 0⟩ "emitted" (by decide)⟩

/-- Modelled from the spec: the subset construction of the external regex2c
library (not under src/) assigns a determinized state's `end_tag` as "the
numerically smallest tag in the subset" of NFA states (first-rule-wins),
with `-1` when no state of the subset is accepting. -/
def dfa_subset_end_tag (tags : List Int) : Int :=
  match tags.filter (fun t => decide (0 ≤ t)) with
  | [] => -1
  | t :: ts => ts.foldl min t

/-- Folding `min` over a list returns `i` when `i` bounds the seed and all
elements from below and occurs among them. -/
theorem foldl_min_eq (i : Int) :
    ∀ (l : List Int) (a : Int), i ≤ a → (∀ x ∈ l, i ≤ x) →
      (a = i ∨ i ∈ l) → l.foldl min a = i := by
  intro l
  induction l with
  | nil =>
    intro a hia _ hmem
    rcases hmem with h | h
    · simpa using h
    · simp at h
  | cons x xs ih =>
    intro a hia hall hmem
    simp only [List.foldl_cons]
    apply ih (min a x)
    · exact le_min hia (hall x (List.mem_cons_self x xs))
    · intro y hy
      exact hall y (List.mem_cons_of_mem x hy)
    · rcases hmem with h | h
      · left
        rw [h]
        exact min_eq_left (hall x (List.mem_cons_self x xs))
      · rcases List.mem_cons.mp h with h | h
        · left
          rw [← h]
          exact min_eq_right hia
        · right
          exact h

/-- C6: first-rule-wins tie-break.  If tags `i < j` both appear in a DFA
state's NFA subset and `i` is the numerically smallest (nonnegative) tag
there, the state's `end_tag` is `i`, and the generated runtime — which
checkpoints that tag via `reglex_accept` and dispatches it in the reject
switch — runs rule `i`'s action. -/
theorem C6_first_rule_wins (tags : List Int) (i j : Int) (numTags : Nat)
    (hi : i ∈ tags) (hj : j ∈ tags) (hij : i < j) (h0 : 0 ≤ i)
    (hmin : ∀ t ∈ tags, 0 ≤ t → i ≤ t) (hn : i < (numTags : Int))
    (st : ReglexState) :
    dfa_subset_end_tag tags = i ∧
    (reglex_reject numTags (reglex_accept (dfa_subset_end_tag tags) st)).2 =
      some (i.toNat, (reglex_accept i st).lexem) := by
  have hfi : i ∈ tags.filter (fun t => decide (0 ≤ t)) :=
    List.mem_filter.mpr ⟨hi, by simpa using h0⟩
  have htag : dfa_subset_end_tag tags = i := by
    unfold dfa_subset_end_tag
    rcases hft : tags.filter (fun t => decide (0 ≤ t)) with _ | ⟨t, ts⟩
    · rw [hft] at hfi
      simp at hfi
    · rw [hft] at hfi
      have hmemt := List.mem_filter.mp (hft ▸ List.mem_cons_self t ts)
      apply foldl_min_eq
      · exact hmin t hmemt.1 (by simpa using hmemt.2)
      · intro x hx
        have hxf : x ∈ tags.filter (fun t => decide (0 ≤ t)) := by
          rw [hft]
          exact List.mem_cons_of_mem t hx
        have hmemx := List.mem_filter.mp hxf
        exact hmin x hmemx.1 (by simpa using hmemx.2)
      · rcases List.mem_cons.mp hfi with h | h
        · left
          exact h.symm
        · right
          exact h
  refine ⟨htag, ?_⟩
  rw [htag]
  have hcond : 0 ≤ (reglex_accept i st).checkpoint_tag ∧
      (reglex_accept i st).checkpoint_tag < (numTags : Int) := by
    rw [reglex_accept_checkpoint_tag]
    exact ⟨h0, hn⟩
  unfold reglex_reject
  rw [if_pos hcond]
  rfl

/-- C6 witness: subset tags `[2, 0]` with rules 0 and 2 both accepting. -/
theorem C6_first_rule_wins_witness :
    (0 : Int) ∈ [(2 : Int), 0] ∧ (2 : Int) ∈ [(2 : Int), 0] ∧
    (0 : Int) < 2 ∧ (0 : Int) ≤ 0 ∧
    (∀ t ∈ [(2 : Int), 0], 0 ≤ t → (0 : Int) ≤ t) ∧
    (0 : Int) < ((3 : Nat) : Int) ∧
    (dfa_subset_end_tag [2, 0] = 0 ∧
      (reglex_reject 3
        (reglex_accept (dfa_subset_end_tag [2, 0]) (initState []))).2 =
        some ((0 : Int).toNat, (reglex_accept 0 (initState [])).lexem)) :=
  ⟨by decide, by decide, by decide, by decide, by decide, by decide,
    C6_first_rule_wins [2, 0] 0 2 3 (by decide) (by decide) (by decide)
      (by decide) (by decide) (by decide) (initState [])⟩

/-- `get_definition` (src/reglex.c lines 216-225): walk the definition list
from its head and return the first entry whose name matches (`strcmp`).
`consume_reg_defs` prepends each new definition to the list head, so the
head-first walk is latest-defined-first. -/
def get_definition {A : Type} (name : String) :
    List (String × A) → Option A
  | [] => none
  | d :: rest => if d.1 = name then some d.2 else get_definition name rest

/-- `consume_reg_defs` (src/reglex.c lines 390-394): a newly parsed
definition is prepended (`new_def->next = defs; defs = new_def`). -/
def add_definition {A : Type} (name : String) (ast : A)
    (defs : List (String × A)) : List (String × A) :=
  (name, ast) :: defs

/-- Modelled from the spec: a reference inside a rule or later definition
is expanded by structural inlining at the moment that rule/definition is
parsed (`consume_regex_expr` of the external regex2c library resolves names
through the `get_definition` hook at parse time). -/
def resolve_reference_at_parse {A : Type} (defs : List (String × A))
    (name : String) : Option A :=
  get_definition name defs

/-- Anything found in a list headed by non-matching entries is found behind
them. -/
theorem get_definition_skip {A : Type} (name : String) :
    ∀ (pre defs : List (String × A)), (∀ p ∈ pre, p.1 ≠ name) →
      get_definition name (pre ++ defs) = get_definition name defs := by
  intro pre
  induction pre with
  | nil => intro defs _; rfl
  | cons d rest ih =>
    intro defs hpre
    rw [List.cons_append, get_definition,
      if_neg (hpre d (List.mem_cons_self d rest)), ih]
    intro p hp
    exact hpre p (List.mem_cons_of_mem d hp)

/-- C7: regular-definition lookup is latest-defined-first: when a name is
defined more than once, `get_definition` returns the most recent
definition (the one closest to the list head); and since references are
expanded at the moment a rule or later definition is parsed, a rule parsed
against the pre-redefinition table resolves to the earlier binding while
anything parsed after the redefinition resolves to the new one. -/
theorem C7_latest_defined_first {A : Type} (name : String)
    (pre post : List (String × A)) (a : A)
    (hpre : ∀ p ∈ pre, p.1 ≠ name) :
    get_definition name (pre ++ (name, a) :: post) = some a ∧
    (∀ (defs : List (String × A)) (a1 a2 : A),
      resolve_reference_at_parse defs name = some a1 →
      resolve_reference_at_parse (add_definition name a2 defs) name =
          some a2 ∧
        resolve_reference_at_parse defs name = some a1) := by
  constructor
  · rw [get_definition_skip name pre _ hpre, get_definition, if_pos rfl]
  · intro defs a1 a2 h1
    refine ⟨?_, h1⟩
    unfold resolve_reference_at_parse add_definition
    rw [get_definition, if_pos rfl]

/-- C7 witness: the name "D" defined twice. -/
theorem C7_latest_defined_first_witness :
    (∀ p ∈ [("X", (7 : Nat))], p.1 ≠ "D") ∧
    (get_definition "D" ([("X", 7)] ++ ("D", 1) :: [("D", 0)]) = some 1 ∧
    (∀ (defs : List (String × Nat)) (a1 a2 : Nat),
      resolve_reference_at_parse defs "D" = some a1 →
      resolve_reference_at_parse (add_definition "D" a2 defs) "D" =
          some a2 ∧
        resolve_reference_at_parse defs "D" = some a1)) :=
  ⟨by decide, C7_latest_defined_first "D" [("X", 7)] [("D", 0)] 1 (by decide)⟩

/-- The tag-assignment loop of `consume_token_actions` (src/reglex.c lines
429-458): the local counter `tag_ctr` starts at 0 for each parser block,
every consumed rule receives `tag_ctr++` and is prepended to the block's
action list. -/
def consume_token_actions_tags {A : Type} :
    List A → Nat → List (A × Nat) → List (A × Nat)
  | [], _, acc => acc
  | r :: rest, ctr, acc =>
    consume_token_actions_tags rest (ctr + 1) ((r, ctr) :: acc)

/-- Tag assignment for one parser block, exactly as `consume_token_actions`
performs it (counter starting at 0, empty accumulator). -/
def assign_block_tags {A : Type} (rules : List A) : List (A × Nat) :=
  consume_token_actions_tags rules 0 []

/-- The accumulator survives the tag-assignment loop. -/
theorem consume_token_actions_tags_acc_sub {A : Type} :
    ∀ (rules : List A) (ctr : Nat) (acc : List (A × Nat)) (x : A × Nat),
      x ∈ acc → x ∈ consume_token_actions_tags rules ctr acc := by
  intro rules
  induction rules with
  | nil => intro ctr acc x hx; exact hx
  | cons r rest ih =>
    intro ctr acc x hx
    exact ih (ctr + 1) ((r, ctr) :: acc) x (List.mem_cons_of_mem _ hx)

/-- The `k`-th rule consumed receives tag `ctr + k`. -/
theorem consume_token_actions_tags_mem {A : Type} :
    ∀ (rules : List A) (ctr : Nat) (acc : List (A × Nat)) (k : Nat)
      (hk : k < rules.length),
      (rules.get ⟨k, hk⟩, ctr + k) ∈
        consume_token_actions_tags rules ctr acc := by
  intro rules
  induction rules with
  | nil => intro ctr acc k hk; simp at hk
  | cons r rest ih =>
    intro ctr acc k hk
    rcases k with _ | k
    · exact consume_token_actions_tags_acc_sub rest (ctr + 1)
        ((r, ctr) :: acc) (r, ctr) (List.mem_cons_self _ _)
    · have := ih (ctr + 1) ((r, ctr) :: acc) k (by simpa using hk)
      simpa [Nat.add_comm, Nat.add_assoc, Nat.add_left_comm] using this

/-- C8: tag numbering restarts at zero for every parser block: the `k`-th
rule of a block receives tag `k` (the assignment is a function of that
block's rules alone, since `tag_ctr` is local to `consume_token_actions`),
so every nonempty block reuses tag 0 — tags are unique only within one
sub-lexer's reject switch, not across the specification. -/
theorem C8_tags_restart_per_block {A : Type} (rules : List A) (k : Nat)
    (hk : k < rules.length) (b1 b2 : List A)
    (hne1 : b1 ≠ []) (hne2 : b2 ≠ []) :
    (rules.get ⟨k, hk⟩, k) ∈ assign_block_tags rules ∧
    (∃ r, (r, 0) ∈ assign_block_tags b1) ∧
    (∃ r, (r, 0) ∈ assign_block_tags b2) := by
  have hzero : ∀ (b : List A), b ≠ [] → ∃ r, (r, 0) ∈ assign_block_tags b := by
    intro b hne
    obtain ⟨r, rest, hb⟩ := List.exists_cons_of_ne_nil hne
    refine ⟨r, ?_⟩
    rw [hb]
    have := consume_token_actions_tags_mem (r :: rest) 0 [] 0 (by simp)
    simpa [assign_block_tags] using this
  refine ⟨?_, hzero b1 hne1, hzero b2 hne2⟩
  have := consume_token_actions_tags_mem rules 0 [] k hk
  simpa [assign_block_tags] using this

/-- C8 witness: two two-rule blocks both reuse tags 0 and 1. -/
theorem C8_tags_restart_per_block_witness :
    (1 : Nat) < [(10 : Nat), 11].length ∧ [(20 : Nat), 21] ≠ [] ∧
    [(30 : Nat), 31] ≠ [] ∧
    (([(10 : Nat), 11].get ⟨1, by decide⟩, 1) ∈
        assign_block_tags [(10 : Nat), 11] ∧
      (∃ r, (r, 0) ∈ assign_block_tags [(20 : Nat), 21]) ∧
      (∃ r, (r, 0) ∈ assign_block_tags [(30 : Nat), 31])) :=
  ⟨by decide, by decide, by decide,
    C8_tags_restart_per_block [10, 11] 1 (by decide) [20, 21] [30, 31]
      (by decide) (by decide)⟩

/-- A parser spec as `print_parser_switching` (src/reglex.c lines 483-502)
sees it: source name, uniquified emitted name, and whether the block was
introduced by a `%{name%}` marker. -/
structure ParserSpec where
  name : String
  unique_name : String
  is_named : Bool
deriving Repr, DecidableEq

/-- The generated `reglex_switch_parser` (emitted by
`print_parser_switching`, src/reglex.c lines 483-502): an
`if/else if` chain of `strcmp` tests over the named specs only, assigning
`reglex_token_parser_fn` on the first match; unnamed specs emit no branch,
and a fall-through performs no assignment and reports nothing.  The active
matcher is represented by its unique name `cur`. -/
def reglex_switch_parser_model :
    List ParserSpec → String → String → String
  | [], _, cur => cur
  | s :: rest, arg, cur =>
    if s.is_named = true ∧ s.name = arg then s.unique_name
    else reglex_switch_parser_model rest arg cur

/-- C9: calling the generated `reglex_switch_parser` with a string that is
not the name of any named sub-lexer leaves the active matcher unchanged and
reports no error; in general the call either leaves the matcher unchanged
or selects a spec declared with a `%{name%}` marker — the default unnamed
parser never appears in the dispatch chain, so it cannot be switched back
to by name. -/
theorem C9_switch_unknown_name (specs : List ParserSpec) (arg cur : String)
    (h : ∀ s ∈ specs, s.is_named = true → s.name ≠ arg) :
    reglex_switch_parser_model specs arg cur = cur ∧
    ∀ (specs2 : List ParserSpec) (arg2 cur2 : String),
      reglex_switch_parser_model specs2 arg2 cur2 = cur2 ∨
      ∃ s, s ∈ specs2 ∧ s.is_named = true ∧ s.name = arg2 ∧
        reglex_switch_parser_model specs2 arg2 cur2 = s.unique_name := by
  constructor
  · induction specs with
    | nil => rfl
    | cons s rest ih =>
      rw [reglex_switch_parser_model, if_neg]
      · exact ih fun p hp => h p (List.mem_cons_of_mem s hp)
      · intro hc
        exact absurd hc.2 (h s (List.mem_cons_self s rest) hc.1)
  · intro specs2 arg2 cur2
    induction specs2 with
    | nil => exact Or.inl rfl
    | cons s rest ih =>
      by_cases hc : s.is_named = true ∧ s.name = arg2
      · right
        refine ⟨s, List.mem_cons_self s rest, hc.1, hc.2, ?_⟩
        rw [reglex_switch_parser_model, if_pos hc]
      · rw [reglex_switch_parser_model, if_neg hc]
        rcases ih with h | ⟨s2, hs2, h1, h2, h3⟩
        · exact Or.inl h
        · exact Or.inr ⟨s2, List.mem_cons_of_mem s hs2, h1, h2, h3⟩

/-- C9 witness: a default unnamed spec and one named spec, queried with an
unknown name. -/
theorem C9_switch_unknown_name_witness :
    (∀ s ∈ [ParserSpec.mk "" "unnamed_0" false,
            ParserSpec.mk "str" "str_named" true],
      s.is_named = true → s.name ≠ "unnamed_0") ∧
    (reglex_switch_parser_model
        [ParserSpec.mk "" "unnamed_0" false,
         ParserSpec.mk "str" "str_named" true] "unnamed_0" "unnamed_0" =
      "unnamed_0" ∧
    ∀ (specs2 : List ParserSpec) (arg2 cur2 : String),
      reglex_switch_parser_model specs2 arg2 cur2 = cur2 ∨
      ∃ s, s ∈ specs2 ∧ s.is_named = true ∧ s.name = arg2 ∧
        reglex_switch_parser_model specs2 arg2 cur2 = s.unique_name) :=
  ⟨by decide,
    C9_switch_unknown_name
      [ParserSpec.mk "" "unnamed_0" false,
       ParserSpec.mk "str" "str_named" true] "unnamed_0" "unnamed_0"
      (by decide)⟩

end Reglex
